import Mathlib

/-!
Verification of the RFB/VNC client core in `src/lib/rfb.ts` (web-os).

The development shallowly embeds the parts of the source that the
specification talks about: the inbound byte-stream assembler
(`class ByteQueue`), the zlib rectangle driver (`inflateZlibRect` and the
`Unzlib` output callback installed by `ensureZlibStream`), the framebuffer
blitters (`blitRaw`, `blitRaw32leBgrx`, `blitRaw32leRgbx`), the security
negotiation (`negotiateSecurity` / `readServerInit`), the outbound send
queue (`send` / `flushSendQueue`), and the input handlers (pointer lock,
touch, keyboard).  Machine numbers are embedded as `Nat` (all wire values
are unsigned and small); byte buffers become `List Nat`; code that throws
returns `Except RfbErr`.
-/

set_option maxHeartbeats 1000000

namespace WebOS

/-! ## Byte Stream Assembler (`class ByteQueue`) -/

/-- State of a `ByteQueue`.  The source stores every pushed chunk in an array
`chunks` behind an advancing read index `head` (plus a periodic compaction
`this.chunks = this.chunks.slice(this.head)` that discards only
already-consumed chunks, never changing the unread stream).  We represent the
live suffix `chunks[head..]` directly as `chunks`, together with the byte
offset `headOffset` into its first chunk; `buffered` and `isClosed` are kept
verbatim.  The `waiters` array is the wake-up plumbing for the single
suspended reader and carries no data; suspension is modelled by the
`blocked` outcome of `readExactly` below. -/
structure QState where
  chunks : List (List Nat)
  headOffset : Nat
  buffered : Nat
  isClosed : Bool
deriving Repr, DecidableEq

def initQ : QState := { chunks := [], headOffset := 0, buffered := 0, isClosed := false }

/-- `ByteQueue.push`: dropped after close, zero-length chunks are no-ops,
otherwise the chunk is appended and `buffered` grows. -/
def ByteQueue.push (s : QState) (chunk : List Nat) : QState :=
  if s.isClosed then s
  else if chunk.length = 0 then s
  else { s with chunks := s.chunks ++ [chunk], buffered := s.buffered + chunk.length }

/-- `ByteQueue.close`: marks end of stream (terminal) and wakes all waiters. -/
def ByteQueue.close (s : QState) : QState := { s with isClosed := true }

/-- The inner copy loop of `ByteQueue.readExactly`: starting at byte
`off` of the first live chunk, remove `n` bytes.  Returns the bytes taken
together with the remaining live chunks and the new first-chunk offset
(the source advances `head`/`headOffset`; a chunk consumed to its end is
stepped past exactly as in `if (this.headOffset === chunk.length)`).
The loop is only entered when `buffered ≥ n`, so the empty-chunks case is
unreachable there. -/
def extractLoop : List (List Nat) → Nat → Nat → List Nat × List (List Nat) × Nat
  | cs, off, 0 => ([], cs, off)
  | [], off, _ + 1 => ([], [], off)
  | c :: cs, off, n + 1 =>
    let avail := c.length - off
    if n + 1 < avail then
      ((c.drop off).take (n + 1), c :: cs, off + (n + 1))
    else
      let r := extractLoop cs 0 (n + 1 - avail)
      (c.drop off ++ r.1, r.2.1, r.2.2)

/-- Outcome of one `readExactly` call against a fixed queue state: the read
either completes (`ok`), throws `connection closed` (`closedErr`), or
suspends awaiting a future `push`/`close` (`blocked`, the
`await new Promise(...)` branch of the source's wait loop). -/
inductive ReadRes where
  | ok (out : List Nat) (s : QState)
  | closedErr
  | blocked
deriving Repr, DecidableEq

/-- `ByteQueue.readExactly(n)`: the wait loop runs while
`!this.isClosed && this.buffered < n` (modelled as `blocked`); once it
exits, fewer than `n` buffered bytes means the stream closed short and the
call throws; otherwise exactly `n` bytes are removed.  The source's final
compaction of the chunk array rearranges only consumed storage and is the
identity in this suffix representation. -/
def ByteQueue.readExactly (s : QState) (n : Nat) : ReadRes :=
  if ¬s.isClosed ∧ s.buffered < n then .blocked
  else if s.buffered < n then .closedErr
  else
    let r := extractLoop s.chunks s.headOffset n
    .ok r.1 { chunks := r.2.1, headOffset := r.2.2, buffered := s.buffered - n,
              isClosed := s.isClosed }

/-- The unread byte stream of a queue state, in arrival order. -/
def QState.rest (s : QState) : List Nat :=
  match s.chunks with
  | [] => []
  | c :: cs => c.drop s.headOffset ++ cs.flatten

/-- Well-formedness of reachable queue states: the first-chunk offset is in
range and `buffered` counts exactly the unread bytes. -/
def QState.wf (s : QState) : Prop :=
  s.headOffset ≤ (s.chunks.headD []).length ∧ s.buffered = s.rest.length

theorem initQ_wf : initQ.wf := by
  constructor <;> simp [initQ, QState.rest]

theorem rest_eq_flatten_drop (s : QState) (h : s.headOffset ≤ (s.chunks.headD []).length) :
    s.rest = s.chunks.flatten.drop s.headOffset := by
  unfold QState.rest
  cases hc : s.chunks with
  | nil => simp
  | cons c cs =>
    rw [hc] at h
    simp only [List.headD_cons] at h
    simp only [List.flatten_cons, List.drop_append_eq_append_drop,
      Nat.sub_eq_zero_of_le h, List.drop_zero]

theorem extractLoop_spec : ∀ (cs : List (List Nat)) (off n : Nat),
    off ≤ (cs.headD []).length →
    n ≤ (cs.flatten.drop off).length →
    (extractLoop cs off n).1 = (cs.flatten.drop off).take n ∧
    (extractLoop cs off n).2.2 ≤ ((extractLoop cs off n).2.1.headD []).length ∧
    (extractLoop cs off n).2.1.flatten.drop (extractLoop cs off n).2.2 =
      (cs.flatten.drop off).drop n := by
  intro cs
  induction cs with
  | nil =>
    intro off n hoff hn
    simp only [List.headD_nil, List.length_nil, Nat.le_zero] at hoff
    simp only [List.flatten_nil, List.drop_nil, List.length_nil, Nat.le_zero] at hn
    subst hoff; subst hn
    simp [extractLoop]
  | cons c cs ih =>
    intro off n hoff hn
    simp only [List.headD_cons] at hoff
    match n with
    | 0 => simpa [extractLoop] using hoff
    | m + 1 =>
      have hrw : (c :: cs).flatten.drop off = c.drop off ++ cs.flatten := by
        rw [List.flatten_cons, List.drop_append_eq_append_drop,
          Nat.sub_eq_zero_of_le hoff, List.drop_zero]
      have hlen : (c.drop off).length = c.length - off := List.length_drop _ _
      by_cases h1 : m + 1 < c.length - off
      · have hres : extractLoop (c :: cs) off (m + 1) =
            ((c.drop off).take (m + 1), c :: cs, off + (m + 1)) := by
          simp [extractLoop, h1]
        rw [hres]
        refine ⟨?_, ?_, ?_⟩
        · rw [hrw, List.take_append_of_le_length (by omega)]
        · simp only [List.headD_cons]; omega
        · have : (c :: cs).flatten.drop (off + (m + 1)) =
              ((c :: cs).flatten.drop off).drop (m + 1) := by
            rw [List.drop_drop]
          simp only [List.headD_cons]
          exact this
      · have havail : c.length - off ≤ m + 1 := by omega
        have hres : extractLoop (c :: cs) off (m + 1) =
            (c.drop off ++ (extractLoop cs 0 (m + 1 - (c.length - off))).1,
             (extractLoop cs 0 (m + 1 - (c.length - off))).2.1,
             (extractLoop cs 0 (m + 1 - (c.length - off))).2.2) := by
          simp [extractLoop, h1]
        have hn' : m + 1 - (c.length - off) ≤ (cs.flatten.drop 0).length := by
          rw [hrw] at hn
          simp only [List.length_append, hlen] at hn
          simp only [List.drop_zero]
          omega
        obtain ⟨ih1, ih2, ih3⟩ := ih 0 (m + 1 - (c.length - off)) (Nat.zero_le _) hn'
        rw [hres]
        refine ⟨?_, ih2, ?_⟩
        · rw [hrw, List.take_append_eq_append_take,
            List.take_of_length_le (show (c.drop off).length ≤ m + 1 by omega), ih1, hlen]
          simp
        · have hdropnil : List.drop (m + 1) (List.drop off c) = [] :=
            List.drop_of_length_le (show (c.drop off).length ≤ m + 1 by omega)
          rw [ih3, hrw, List.drop_append_eq_append_drop, hdropnil, hlen,
            List.nil_append, List.drop_zero]

/-- `readExactly` success case: with `n` bytes available, exactly the next
`n` unread bytes are returned (in arrival order) and removed. -/
theorem readExactly_ok (s : QState) (n : Nat) (hwf : s.wf) (h : n ≤ s.rest.length) :
    ∃ s₂, ByteQueue.readExactly s n = ReadRes.ok (s.rest.take n) s₂ ∧
      s₂.rest = s.rest.drop n ∧ s₂.wf ∧ s₂.isClosed = s.isClosed := by
  obtain ⟨hoff, hbuf⟩ := hwf
  have hflat := rest_eq_flatten_drop s hoff
  obtain ⟨e1, e2, e3⟩ := extractLoop_spec s.chunks s.headOffset n hoff (by rw [← hflat]; exact h)
  refine ⟨{ chunks := (extractLoop s.chunks s.headOffset n).2.1,
            headOffset := (extractLoop s.chunks s.headOffset n).2.2,
            buffered := s.buffered - n, isClosed := s.isClosed }, ?_, ?_, ?_, rfl⟩
  · unfold ByteQueue.readExactly
    rw [if_neg (fun hcon => absurd hcon.2 (by omega)), if_neg (by omega)]
    show ReadRes.ok (extractLoop s.chunks s.headOffset n).1
        { chunks := (extractLoop s.chunks s.headOffset n).2.1,
          headOffset := (extractLoop s.chunks s.headOffset n).2.2,
          buffered := s.buffered - n, isClosed := s.isClosed } = _
    rw [hflat, ← e1]
  · rw [rest_eq_flatten_drop _ e2]
    show List.drop (extractLoop s.chunks s.headOffset n).2.2
      (extractLoop s.chunks s.headOffset n).2.1.flatten = _
    rw [e3, ← hflat]
  · refine ⟨e2, ?_⟩
    show s.buffered - n = _
    rw [rest_eq_flatten_drop _ e2]
    show s.buffered - n = (List.drop (extractLoop s.chunks s.headOffset n).2.2
      (extractLoop s.chunks s.headOffset n).2.1.flatten).length
    rw [e3, ← hflat]
    simp only [List.length_drop]
    omega

/-- `readExactly` throws `connection closed` exactly when the stream is
closed with fewer than `n` unread bytes remaining. -/
theorem readExactly_closedErr (s : QState) (n : Nat) (hwf : s.wf) :
    ByteQueue.readExactly s n = ReadRes.closedErr ↔
      s.isClosed = true ∧ s.rest.length < n := by
  obtain ⟨hoff, hbuf⟩ := hwf
  unfold ByteQueue.readExactly
  by_cases hc : s.isClosed
  · by_cases hlt : s.buffered < n
    · rw [if_neg (by simp [hc]), if_pos hlt]
      simp [hc]; omega
    · rw [if_neg (by simp [hc]), if_neg hlt]
      constructor
      · intro hcontra; cases hcontra
      · intro ⟨_, h2⟩; omega
  · by_cases hlt : s.buffered < n
    · rw [if_pos ⟨by simpa using hc, hlt⟩]
      constructor
      · intro hcontra; cases hcontra
      · intro ⟨h1, _⟩; simp [hc] at h1
    · rw [if_neg (by tauto), if_neg hlt]
      constructor
      · intro hcontra; cases hcontra
      · intro ⟨h1, _⟩; simp [hc] at h1

/-- `readExactly` suspends (awaits future pushes) exactly when the stream is
still open but fewer than `n` bytes are buffered. -/
theorem readExactly_blocked (s : QState) (n : Nat) (hwf : s.wf) :
    ByteQueue.readExactly s n = ReadRes.blocked ↔
      s.isClosed = false ∧ s.rest.length < n := by
  obtain ⟨hoff, hbuf⟩ := hwf
  unfold ByteQueue.readExactly
  by_cases hb : ¬s.isClosed ∧ s.buffered < n
  · rw [if_pos hb]
    simp only [true_iff]
    obtain ⟨h1, h2⟩ := hb
    exact ⟨by simpa using h1, by omega⟩
  · rw [if_neg hb]
    constructor
    · intro hcontra
      by_cases hlt : s.buffered < n
      · rw [if_pos hlt] at hcontra; cases hcontra
      · rw [if_neg hlt] at hcontra; cases hcontra
    · intro ⟨h1, h2⟩
      exact absurd ⟨by simp [h1], by omega⟩ hb

/-! ## Operation traces against the queue -/

/-- An operation performed on the queue by the transport callback wiring:
either a `push` of an inbound chunk or `close`. -/
inductive QOp where
  | push (chunk : List Nat)
  | close
deriving Repr, DecidableEq

def applyOp (s : QState) : QOp → QState
  | .push c => ByteQueue.push s c
  | .close => ByteQueue.close s

def applyOps (s : QState) (ops : List QOp) : QState := ops.foldl applyOp s

/-- The byte stream carried by a trace of operations: the concatenation of
the chunks pushed before the first `close` (pushes after `close` are
dropped by the queue). -/
def streamBytes : List QOp → List Nat
  | [] => []
  | .push c :: ops => c ++ streamBytes ops
  | .close :: _ => []


theorem headD_length_le_flatten (cs : List (List Nat)) :
    (cs.headD []).length ≤ cs.flatten.length := by
  cases cs with
  | nil => simp
  | cons c rest => simp

theorem push_wf (s : QState) (c : List Nat) (hwf : s.wf) :
    (ByteQueue.push s c).wf ∧
    (ByteQueue.push s c).rest = s.rest ++ (if s.isClosed then [] else c) ∧
    (ByteQueue.push s c).isClosed = s.isClosed := by
  obtain ⟨hoff, hbuf⟩ := hwf
  by_cases hc : s.isClosed
  · have heq : ByteQueue.push s c = s := by
      unfold ByteQueue.push; rw [if_pos hc]
    rw [heq, hc]
    exact ⟨⟨hoff, hbuf⟩, by simp, rfl⟩
  · by_cases hz : c.length = 0
    · have hcz : c = [] := List.length_eq_zero.mp hz
      have heq : ByteQueue.push s c = s := by
        unfold ByteQueue.push; rw [if_neg hc, if_pos hz]
      rw [heq]
      exact ⟨⟨hoff, hbuf⟩, by simp [hcz, hc], rfl⟩
    · have heq : ByteQueue.push s c =
          { s with chunks := s.chunks ++ [c], buffered := s.buffered + c.length } := by
        unfold ByteQueue.push; rw [if_neg hc, if_neg hz]
      have hoff2 : s.headOffset ≤ ((s.chunks ++ [c]).headD []).length := by
        cases hch : s.chunks with
        | nil =>
          rw [hch] at hoff; simp only [List.headD_nil, List.length_nil, Nat.le_zero] at hoff
          simp [hoff]
        | cons c0 cs => rw [hch] at hoff; simpa using hoff
      have hofflat : s.headOffset ≤ s.chunks.flatten.length :=
        le_trans hoff (headD_length_le_flatten s.chunks)
      have hrest : ({ s with chunks := s.chunks ++ [c], buffered := s.buffered + c.length } : QState).rest = s.rest ++ c := by
        rw [rest_eq_flatten_drop { s with chunks := s.chunks ++ [c], buffered := s.buffered + c.length } hoff2, rest_eq_flatten_drop s hoff]
        show (s.chunks ++ [c]).flatten.drop s.headOffset = _
        rw [List.flatten_append, List.drop_append_eq_append_drop,
          Nat.sub_eq_zero_of_le hofflat, List.drop_zero]
        simp
      rw [heq]
      refine ⟨⟨hoff2, ?_⟩, ?_, rfl⟩
      · show s.buffered + c.length = _
        rw [hrest]
        simp [hbuf]
      · rw [hrest, if_neg hc]

theorem close_wf (s : QState) (hwf : s.wf) :
    (ByteQueue.close s).wf ∧ (ByteQueue.close s).rest = s.rest ∧
    (ByteQueue.close s).isClosed = true :=
  ⟨hwf, rfl, rfl⟩

theorem applyOps_spec : ∀ (ops : List QOp) (s : QState), s.wf →
    (applyOps s ops).wf ∧
    (applyOps s ops).rest = s.rest ++ (if s.isClosed then [] else streamBytes ops) ∧
    (applyOps s ops).isClosed = (s.isClosed || ops.any (fun o => o = QOp.close)) := by
  intro ops
  induction ops with
  | nil =>
    intro s hwf
    refine ⟨hwf, by cases h : s.isClosed <;> simp [applyOps, streamBytes], by simp [applyOps]⟩
  | cons op ops ih =>
    intro s hwf
    match op with
    | .push c =>
      have hstep : applyOps s (QOp.push c :: ops) = applyOps (ByteQueue.push s c) ops := rfl
      obtain ⟨w1, w2, w3⟩ := push_wf s c hwf
      obtain ⟨i1, i2, i3⟩ := ih (ByteQueue.push s c) w1
      rw [hstep]
      refine ⟨i1, ?_, ?_⟩
      · rw [i2, w2, w3, streamBytes]
        cases h : s.isClosed <;> simp
      · rw [i3, w3]
        simp
    | .close =>
      have hstep : applyOps s (QOp.close :: ops) = applyOps (ByteQueue.close s) ops := rfl
      obtain ⟨w1, w2, w3⟩ := close_wf s hwf
      obtain ⟨i1, i2, i3⟩ := ih (ByteQueue.close s) w1
      rw [hstep]
      refine ⟨i1, ?_, ?_⟩
      · rw [i2, w2, w3, streamBytes]
        simp
      · rw [i3, w3]
        simp

/-- C1: for every trace of push/close operations and every `n`,
`readExactly(n)` returns exactly the next `n` bytes of the pushed stream in
arrival order, removing exactly those `n` bytes (the unread remainder is the
`drop`); and it fails with the connection-closed error exactly when the
queue has been closed while fewer than `n` bytes remain unread (with the
stream still open and short it suspends instead of failing). -/
theorem readExactly_correct (ops : List QOp) (n : Nat) :
    (n ≤ (streamBytes ops).length →
      ∃ s₂, ByteQueue.readExactly (applyOps initQ ops) n =
          ReadRes.ok ((streamBytes ops).take n) s₂ ∧
        s₂.rest = (streamBytes ops).drop n) ∧
    (ByteQueue.readExactly (applyOps initQ ops) n = ReadRes.closedErr ↔
      (ops.any (fun o => o = QOp.close)) = true ∧ (streamBytes ops).length < n) := by
  obtain ⟨hwf, hrest, hclosed⟩ := applyOps_spec ops initQ initQ_wf
  have hrest' : (applyOps initQ ops).rest = streamBytes ops := by
    rw [hrest]; simp [initQ, QState.rest]
  constructor
  · intro hn
    obtain ⟨s₂, h1, h2, _, _⟩ :=
      readExactly_ok (applyOps initQ ops) n hwf (by rw [hrest']; exact hn)
    exact ⟨s₂, by rw [← hrest']; exact h1, by rw [← hrest']; exact h2⟩
  · rw [readExactly_closedErr (applyOps initQ ops) n hwf, hrest', hclosed]
    simp [initQ]

theorem readExactly_correct_witness :
    ∃ s₂, ByteQueue.readExactly (applyOps initQ [QOp.push [10, 20, 30], QOp.push [40, 50]]) 4 =
        ReadRes.ok [10, 20, 30, 40] s₂ ∧ s₂.rest = [50] := by
  have h := (readExactly_correct [QOp.push [10, 20, 30], QOp.push [40, 50]] 4).1 (by decide)
  obtain ⟨s₂, h1, h2⟩ := h
  exact ⟨s₂, by simpa using h1, by simpa using h2⟩

/-! ## C5: chunk-boundary independence -/

/-- Run a sequence of `readExactly` calls (the single logical reader),
collecting the returned byte blocks; `none` if any call does not complete. -/
def runReads (s : QState) : List Nat → Option (List (List Nat))
  | [] => some []
  | n :: ns =>
    match ByteQueue.readExactly s n with
    | .ok out s₂ => (runReads s₂ ns).map (fun rs => out :: rs)
    | .closedErr => none
    | .blocked => none

/-- `readExactly` results are a function of the unread stream and the closed
flag alone, never of the chunk structure. -/
theorem runReads_congr : ∀ (ns : List Nat) (s t : QState), s.wf → t.wf →
    s.rest = t.rest → s.isClosed = t.isClosed →
    runReads s ns = runReads t ns := by
  intro ns
  induction ns with
  | nil => intro s t _ _ _ _; rfl
  | cons n ns ih =>
    intro s t hws hwt hrest hclosed
    show (match ByteQueue.readExactly s n with
      | .ok out s₂ => (runReads s₂ ns).map (fun rs => out :: rs)
      | .closedErr => none
      | .blocked => none) =
      (match ByteQueue.readExactly t n with
      | .ok out t₂ => (runReads t₂ ns).map (fun rs => out :: rs)
      | .closedErr => none
      | .blocked => none)
    by_cases hn : n ≤ s.rest.length
    · obtain ⟨s₂, hs1, hs2, hs3, hs4⟩ := readExactly_ok s n hws hn
      obtain ⟨t₂, ht1, ht2, ht3, ht4⟩ := readExactly_ok t n hwt (by rw [← hrest]; exact hn)
      rw [hs1, ht1, hrest]
      have := ih s₂ t₂ hs3 ht3 (by rw [hs2, ht2, hrest]) (by rw [hs4, ht4, hclosed])
      show (runReads s₂ ns).map (fun rs => (List.take n t.rest) :: rs) =
        (runReads t₂ ns).map (fun rs => (List.take n t.rest) :: rs)
      rw [this]
    · have hlt : s.rest.length < n := by omega
      cases hc : s.isClosed with
      | true =>
        have h1 : ByteQueue.readExactly s n = ReadRes.closedErr :=
          (readExactly_closedErr s n hws).mpr ⟨hc, hlt⟩
        have h2 : ByteQueue.readExactly t n = ReadRes.closedErr :=
          (readExactly_closedErr t n hwt).mpr ⟨by rw [← hclosed]; exact hc, by rw [← hrest]; exact hlt⟩
        rw [h1, h2]
      | false =>
        have h1 : ByteQueue.readExactly s n = ReadRes.blocked :=
          (readExactly_blocked s n hws).mpr ⟨hc, hlt⟩
        have h2 : ByteQueue.readExactly t n = ReadRes.blocked :=
          (readExactly_blocked t n hwt).mpr ⟨by rw [← hclosed]; exact hc, by rw [← hrest]; exact hlt⟩
        rw [h1, h2]

theorem streamBytes_pushes : ∀ (cs : List (List Nat)),
    streamBytes (cs.map QOp.push) = cs.flatten := by
  intro cs
  induction cs with
  | nil => rfl
  | cons c cs ih => simp [streamBytes, ih]

theorem pushes_not_closed (cs : List (List Nat)) :
    ((cs.map QOp.push).any (fun o => o = QOp.close)) = false := by
  induction cs with
  | nil => rfl
  | cons c cs ih => simp [ih]

/-- C5: feeding the same byte sequence split into arbitrarily many push
chunks, any sequence of `readExactly` calls yields byte-for-byte identical
results in identical order — results depend only on the concatenation of
the pushed bytes, never on chunk boundaries. -/
theorem readExactly_chunk_invariance (cs1 cs2 : List (List Nat)) (ns : List Nat)
    (h : cs1.flatten = cs2.flatten) :
    runReads (applyOps initQ (cs1.map QOp.push)) ns =
      runReads (applyOps initQ (cs2.map QOp.push)) ns := by
  obtain ⟨hw1, hr1, hc1⟩ := applyOps_spec (cs1.map QOp.push) initQ initQ_wf
  obtain ⟨hw2, hr2, hc2⟩ := applyOps_spec (cs2.map QOp.push) initQ initQ_wf
  refine runReads_congr ns _ _ hw1 hw2 ?_ ?_
  · rw [hr1, hr2, streamBytes_pushes, streamBytes_pushes, h]
  · rw [hc1, hc2, pushes_not_closed]
    rw [pushes_not_closed]

theorem readExactly_chunk_invariance_witness :
    runReads (applyOps initQ ([[1], [2, 3], [4, 5, 6]].map QOp.push)) [2, 3] =
      runReads (applyOps initQ ([[1, 2, 3, 4], [5, 6]].map QOp.push)) [2, 3] :=
  readExactly_chunk_invariance [[1], [2, 3], [4, 5, 6]] [[1, 2, 3, 4], [5, 6]] [2, 3] rfl

/-! ## Errors thrown by the client (section 7 taxonomy) -/

/-- The errors the client throws (`throw new Error(...)` sites in rfb.ts). -/
inductive RfbErr where
  | connectionClosed
  | badVersion
  | securityFailed (reason : List Nat)
  | noNoneSecurity
  | securityResult (code : Nat)
  | unsupportedEncoding (enc : Int)
  | unhandledMessage (t : Nat)
  | zlibOverflow (got expected : Nat)
  | zlibSizeMismatch (got expected : Nat)
  | trueColorUnsupported
deriving Repr, DecidableEq

/-! ## Pixel formats and the framebuffer blitters -/

/-- The 10 meaningful fields of the wire `PixelFormat` (3 reserved pad bytes
omitted).  All fields are unsigned wire integers. -/
structure PixelFormat where
  bitsPerPixel : Nat
  depth : Nat
  bigEndian : Nat
  trueColor : Nat
  redMax : Nat
  greenMax : Nat
  blueMax : Nat
  redShift : Nat
  greenShift : Nat
  blueShift : Nat
deriving Repr, DecidableEq

/-- The client's fixed preferred format (`sendPreferredPixelFormat`). -/
def preferredPf : PixelFormat :=
  { bitsPerPixel := 32, depth := 24, bigEndian := 0, trueColor := 1,
    redMax := 255, greenMax := 255, blueMax := 255,
    redShift := 16, greenShift := 8, blueShift := 0 }

/-- One store `dst[i] = v` into the `Uint8ClampedArray` `imageData.data`:
per typed-array semantics an out-of-range index is discarded (exactly what
`List.set` does) and the value clamps to 0..255 (every value written by the
blitters is already ≤ 255). -/
def setByte (dst : List Nat) (i v : Nat) : List Nat :=
  dst.set i (min v 255)

/-- `isFastBgrx32` (rfb.ts): 32bpp little-endian truecolor, 8-bit channels,
shifts R=16 G=8 B=0. -/
def isFastBgrx32 (pf : PixelFormat) : Bool :=
  pf.bitsPerPixel == 32 && pf.bigEndian == 0 && pf.trueColor == 1 &&
  pf.redMax == 255 && pf.greenMax == 255 && pf.blueMax == 255 &&
  pf.redShift == 16 && pf.greenShift == 8 && pf.blueShift == 0

/-- `isFastRgbx32` (rfb.ts): as above with shifts R=0 G=8 B=16. -/
def isFastRgbx32 (pf : PixelFormat) : Bool :=
  pf.bitsPerPixel == 32 && pf.bigEndian == 0 && pf.trueColor == 1 &&
  pf.redMax == 255 && pf.greenMax == 255 && pf.blueMax == 255 &&
  pf.redShift == 0 && pf.greenShift == 8 && pf.blueShift == 16

/-- Pixel-integer assembly loop of the generic `blitRaw` path: big-endian
accumulates `pixel = (pixel << 8) | byte`, little-endian ors each byte at
`8*i`.  Bytes past the end of `raw` read as 0 here; the claims' theorems are
used with in-range byte values (< 256), where the JS 32-bit integer bitops
and these `Nat` bitops coincide (all occupied bits lie below bit 32 and the
extracted fields below bit 24). -/
def assemblePixel (pf : PixelFormat) (raw : List Nat) (srcOff bpp : Nat) : Nat :=
  if pf.bigEndian ≠ 0 then
    (List.range bpp).foldl (fun pixel i => pixel <<< 8 ||| raw.getD (srcOff + i) 0) 0
  else
    (List.range bpp).foldl (fun pixel i => pixel ||| raw.getD (srcOff + i) 0 <<< (8 * i)) 0

/-- Channel scaling of the generic path: the multiplier `255 / max` is 1
exactly when `max = 255` (the `rMul === 1` test), in which case the raw
channel value is stored; otherwise `Math.round(v * (255 / max))`, which the
source computes in binary floating point and we model as exact rounded
rational arithmetic (only the `max = 255` branch is exercised by the claims). -/
def scaleChannel (v maxv : Nat) : Nat :=
  if maxv = 255 then v else (v * 255 * 2 + maxv) / (2 * maxv)

/-- One pixel of the generic `blitRaw` decode loop: extract each channel as
`(pixel >> shift) & max`, scale, and store RGBA with alpha 255. -/
def blitGenericPixel (pf : PixelFormat) (raw : List Nat) (srcOff bpp : Nat)
    (dst : List Nat) (dstOff : Nat) : List Nat :=
  let pixel := assemblePixel pf raw srcOff bpp
  let rVal := pixel >>> pf.redShift &&& pf.redMax
  let gVal := pixel >>> pf.greenShift &&& pf.greenMax
  let bVal := pixel >>> pf.blueShift &&& pf.blueMax
  setByte (setByte (setByte (setByte dst (dstOff + 0) (scaleChannel rVal pf.redMax))
    (dstOff + 1) (scaleChannel gVal pf.greenMax))
    (dstOff + 2) (scaleChannel bVal pf.blueMax))
    (dstOff + 3) 255

/-- Column loop of the generic path (`for col`): fuel counts remaining
columns; `srcOff` advances by `bpp`, `dstOff` by 4, per pixel. -/
def blitGenericCols (pf : PixelFormat) (raw : List Nat) (bpp : Nat) :
    Nat → Nat → Nat → List Nat → List Nat
  | 0, _, _, dst => dst
  | cols + 1, srcOff, dstOff, dst =>
    blitGenericCols pf raw bpp cols (srcOff + bpp) (dstOff + 4)
      (blitGenericPixel pf raw srcOff bpp dst dstOff)

/-- Row loop of the generic path (`for row`): `rowAbs` is `y + row`;
`dstOff` is recomputed per row as `((y+row)*fbW + x)*4`; `srcOff` runs
continuously, advancing by `w*bpp` per row exactly as the column loop left
it. -/
def blitGenericRows (pf : PixelFormat) (raw : List Nat) (bpp x fbW w : Nat) :
    Nat → Nat → Nat → List Nat → List Nat
  | 0, _, _, dst => dst
  | rows + 1, rowAbs, srcOff, dst =>
    blitGenericRows pf raw bpp x fbW w rows (rowAbs + 1) (srcOff + w * bpp)
      (blitGenericCols pf raw bpp w srcOff ((rowAbs * fbW + x) * 4) dst)

/-- The generic (shift-mask-scale) decode path of `blitRaw` (the code after
the fast-path dispatch). -/
def blitGeneric (pf : PixelFormat) (x y w h : Nat) (raw : List Nat)
    (bpp fbW : Nat) (dst : List Nat) : List Nat :=
  blitGenericRows pf raw bpp x fbW w h y 0 dst

/-- Column loop of `blitRaw32leBgrx`: bytes are B,G,R,X; stores R,G,B,255. -/
def blitBgrxCols (raw : List Nat) : Nat → Nat → Nat → List Nat → List Nat
  | 0, _, _, dst => dst
  | cols + 1, srcOff, dstOff, dst =>
    blitBgrxCols raw cols (srcOff + 4) (dstOff + 4)
      (setByte (setByte (setByte (setByte dst (dstOff + 0) (raw.getD (srcOff + 2) 0))
        (dstOff + 1) (raw.getD (srcOff + 1) 0))
        (dstOff + 2) (raw.getD (srcOff + 0) 0))
        (dstOff + 3) 255)

def blitBgrxRows (raw : List Nat) (x fbW w : Nat) :
    Nat → Nat → Nat → List Nat → List Nat
  | 0, _, _, dst => dst
  | rows + 1, rowAbs, srcOff, dst =>
    blitBgrxRows raw x fbW w rows (rowAbs + 1) (srcOff + w * 4)
      (blitBgrxCols raw w srcOff ((rowAbs * fbW + x) * 4) dst)

/-- `blitRaw32leBgrx` (rfb.ts): fast byte-reorder path for BGRX input. -/
def blitRaw32leBgrx (x y w h : Nat) (raw : List Nat) (fbW : Nat)
    (dst : List Nat) : List Nat :=
  blitBgrxRows raw x fbW w h y 0 dst

/-- Column loop of `blitRaw32leRgbx`: bytes are R,G,B,X; stores R,G,B,255. -/
def blitRgbxCols (raw : List Nat) : Nat → Nat → Nat → List Nat → List Nat
  | 0, _, _, dst => dst
  | cols + 1, srcOff, dstOff, dst =>
    blitRgbxCols raw cols (srcOff + 4) (dstOff + 4)
      (setByte (setByte (setByte (setByte dst (dstOff + 0) (raw.getD (srcOff + 0) 0))
        (dstOff + 1) (raw.getD (srcOff + 1) 0))
        (dstOff + 2) (raw.getD (srcOff + 2) 0))
        (dstOff + 3) 255)

def blitRgbxRows (raw : List Nat) (x fbW w : Nat) :
    Nat → Nat → Nat → List Nat → List Nat
  | 0, _, _, dst => dst
  | rows + 1, rowAbs, srcOff, dst =>
    blitRgbxRows raw x fbW w rows (rowAbs + 1) (srcOff + w * 4)
      (blitRgbxCols raw w srcOff ((rowAbs * fbW + x) * 4) dst)

/-- `blitRaw32leRgbx` (rfb.ts): fast byte-reorder path for RGBX input. -/
def blitRaw32leRgbx (x y w h : Nat) (raw : List Nat) (fbW : Nat)
    (dst : List Nat) : List Nat :=
  blitRgbxRows raw x fbW w h y 0 dst

/-- `blitRaw` (rfb.ts): dispatch to a fast path when the format matches,
reject palette (non-truecolor) formats, otherwise run the generic path. -/
def blitRaw (pf : PixelFormat) (x y w h : Nat) (raw : List Nat)
    (bpp fbW : Nat) (dst : List Nat) : Except RfbErr (List Nat) :=
  if bpp = 4 ∧ isFastBgrx32 pf then .ok (blitRaw32leBgrx x y w h raw fbW dst)
  else if bpp = 4 ∧ isFastRgbx32 pf then .ok (blitRaw32leRgbx x y w h raw fbW dst)
  else if pf.trueColor = 0 then .error .trueColorUnsupported
  else .ok (blitGeneric pf x y w h raw bpp fbW dst)

/-- `initFramebuffer` allocation: `ctx.createImageData(width, height)`
yields a width×height RGBA8888 buffer, i.e. `width*height*4` zero bytes
(HTML canvas semantics; the canvas API itself is outside this repository). -/
def initFramebuffer (width height : Nat) : List Nat :=
  List.replicate (width * height * 4) 0

theorem setByte_length (dst : List Nat) (i v : Nat) :
    (setByte dst i v).length = dst.length := by
  simp [setByte]

theorem blitGenericPixel_length (pf : PixelFormat) (raw : List Nat)
    (srcOff bpp : Nat) (dst : List Nat) (dstOff : Nat) :
    (blitGenericPixel pf raw srcOff bpp dst dstOff).length = dst.length := by
  simp [blitGenericPixel, setByte]

theorem blitGenericCols_length (pf : PixelFormat) (raw : List Nat) (bpp : Nat) :
    ∀ (cols srcOff dstOff : Nat) (dst : List Nat),
    (blitGenericCols pf raw bpp cols srcOff dstOff dst).length = dst.length := by
  intro cols
  induction cols with
  | zero => intro srcOff dstOff dst; rfl
  | succ n ih =>
    intro srcOff dstOff dst
    rw [blitGenericCols, ih, blitGenericPixel_length]

theorem blitGenericRows_length (pf : PixelFormat) (raw : List Nat)
    (bpp x fbW w : Nat) : ∀ (rows rowAbs srcOff : Nat) (dst : List Nat),
    (blitGenericRows pf raw bpp x fbW w rows rowAbs srcOff dst).length = dst.length := by
  intro rows
  induction rows with
  | zero => intro rowAbs srcOff dst; rfl
  | succ n ih =>
    intro rowAbs srcOff dst
    rw [blitGenericRows, ih, blitGenericCols_length]

theorem blitBgrxCols_length (raw : List Nat) :
    ∀ (cols srcOff dstOff : Nat) (dst : List Nat),
    (blitBgrxCols raw cols srcOff dstOff dst).length = dst.length := by
  intro cols
  induction cols with
  | zero => intro srcOff dstOff dst; rfl
  | succ n ih =>
    intro srcOff dstOff dst
    rw [blitBgrxCols, ih]
    simp [setByte]

theorem blitBgrxRows_length (raw : List Nat) (x fbW w : Nat) :
    ∀ (rows rowAbs srcOff : Nat) (dst : List Nat),
    (blitBgrxRows raw x fbW w rows rowAbs srcOff dst).length = dst.length := by
  intro rows
  induction rows with
  | zero => intro rowAbs srcOff dst; rfl
  | succ n ih =>
    intro rowAbs srcOff dst
    rw [blitBgrxRows, ih, blitBgrxCols_length]

theorem blitRgbxCols_length (raw : List Nat) :
    ∀ (cols srcOff dstOff : Nat) (dst : List Nat),
    (blitRgbxCols raw cols srcOff dstOff dst).length = dst.length := by
  intro cols
  induction cols with
  | zero => intro srcOff dstOff dst; rfl
  | succ n ih =>
    intro srcOff dstOff dst
    rw [blitRgbxCols, ih]
    simp [setByte]

theorem blitRgbxRows_length (raw : List Nat) (x fbW w : Nat) :
    ∀ (rows rowAbs srcOff : Nat) (dst : List Nat),
    (blitRgbxRows raw x fbW w rows rowAbs srcOff dst).length = dst.length := by
  intro rows
  induction rows with
  | zero => intro rowAbs srcOff dst; rfl
  | succ n ih =>
    intro rowAbs srcOff dst
    rw [blitRgbxRows, ih, blitRgbxCols_length]

theorem blitRaw_length (pf : PixelFormat) (x y w h : Nat) (raw : List Nat)
    (bpp fbW : Nat) (dst out : List Nat)
    (hok : blitRaw pf x y w h raw bpp fbW dst = Except.ok out) :
    out.length = dst.length := by
  unfold blitRaw at hok
  by_cases h1 : bpp = 4 ∧ isFastBgrx32 pf
  · rw [if_pos h1] at hok
    cases hok
    exact blitBgrxRows_length raw x fbW w h y 0 dst
  · rw [if_neg h1] at hok
    by_cases h2 : bpp = 4 ∧ isFastRgbx32 pf
    · rw [if_pos h2] at hok
      cases hok
      exact blitRgbxRows_length raw x fbW w h y 0 dst
    · rw [if_neg h2] at hok
      by_cases h3 : pf.trueColor = 0
      · rw [if_pos h3] at hok
        cases hok
      · rw [if_neg h3] at hok
        cases hok
        exact blitGenericRows_length pf raw bpp x fbW w h y 0 dst

theorem getD_ne_imp_lt (a b : List Nat) (i : Nat) (hlen : a.length = b.length)
    (hne : a.getD i 0 ≠ b.getD i 0) : i < a.length := by
  by_contra hge
  have hia : a.length ≤ i := by omega
  have hib : b.length ≤ i := by omega
  have ha : a.getD i 0 = 0 := by
    simp [List.getD_eq_getElem?_getD, List.getElem?_eq_none hia]
  have hb : b.getD i 0 = 0 := by
    simp [List.getD_eq_getElem?_getD, List.getElem?_eq_none hib]
  exact hne (ha.trans hb.symm)

/-- C3: the allocated pixel buffer has exactly `width*height*4` bytes, and a
decoded rectangle blit — for any `x`, `y`, `w`, `h` the wire can carry and
any payload — only ever changes bytes of pixels whose coordinates lie in
`[0,width) × [0,height)`: the `Uint8ClampedArray` drops stores past the end
of the buffer, and every in-buffer byte index `i` corresponds to the valid
pixel coordinate `(i/4 % width, i/4 / width)`. -/
theorem framebuffer_writes_in_bounds (pf : PixelFormat)
    (width height x y w h bpp : Nat) (raw dst out : List Nat)
    (hdst : dst.length = width * height * 4)
    (hok : blitRaw pf x y w h raw bpp width dst = Except.ok out) :
    (initFramebuffer width height).length = width * height * 4 ∧
    out.length = width * height * 4 ∧
    ∀ i, out.getD i 0 ≠ dst.getD i 0 →
      i < width * height * 4 ∧ i / 4 % width < width ∧ i / 4 / width < height := by
  have hlen : out.length = width * height * 4 := by
    rw [blitRaw_length pf x y w h raw bpp width dst out hok, hdst]
  refine ⟨by simp [initFramebuffer], hlen, ?_⟩
  intro i hne
  have hi : i < width * height * 4 := by
    have := getD_ne_imp_lt out dst i (by omega) hne
    omega
  have hwpos : 0 < width := by
    rcases Nat.eq_zero_or_pos width with h0 | h0
    · subst h0; simp at hi
    · exact h0
  have hq : i / 4 < width * height := by omega
  refine ⟨hi, Nat.mod_lt _ hwpos, Nat.div_lt_of_lt_mul hq⟩

theorem framebuffer_writes_in_bounds_witness :
    ∃ out, blitRaw preferredPf 0 0 1 1 [9, 8, 7, 6] 4 2 (initFramebuffer 2 1) = Except.ok out ∧
      ((initFramebuffer 2 1).length = 2 * 1 * 4 ∧
       out.length = 2 * 1 * 4 ∧
       ∀ i, out.getD i 0 ≠ (initFramebuffer 2 1).getD i 0 →
         i < 2 * 1 * 4 ∧ i / 4 % 2 < 2 ∧ i / 4 / 2 < 1) := by
  refine ⟨blitRaw32leBgrx 0 0 1 1 [9, 8, 7, 6] 2 (initFramebuffer 2 1), rfl, ?_⟩
  exact framebuffer_writes_in_bounds preferredPf 2 1 0 0 1 1 4 [9, 8, 7, 6]
    (initFramebuffer 2 1) _ (by decide) rfl

/-! ## C4: fast-path / generic-path equivalence -/

theorem getD_byte_lt (raw : List Nat) (hraw : ∀ b ∈ raw, b < 256) (k : Nat) :
    raw.getD k 0 < 256 := by
  rw [List.getD_eq_getElem?_getD]
  cases hk : raw[k]? with
  | none => simp
  | some b =>
    have hmem := List.getElem?_mem hk
    simpa using hraw b hmem

theorem or_shift_add (a b k : Nat) (h : a < 2 ^ k) : a ||| b <<< k = 2 ^ k * b + a := by
  rw [Nat.shiftLeft_eq, Nat.mul_comm b (2 ^ k), Nat.or_comm]
  exact (Nat.mul_add_lt_is_or h b).symm

theorem or_shift_add8 (a b : Nat) (h : a < 256) : a ||| b <<< 8 = 256 * b + a := by
  rw [or_shift_add a b 8 (by norm_num [h])]
  norm_num

theorem or_shift_add16 (a b : Nat) (h : a < 65536) : a ||| b <<< 16 = 65536 * b + a := by
  rw [or_shift_add a b 16 (by norm_num [h])]
  norm_num

theorem or_shift_add24 (a b : Nat) (h : a < 16777216) : a ||| b <<< 24 = 16777216 * b + a := by
  rw [or_shift_add a b 24 (by norm_num [h])]
  norm_num

/-- On a 32bpp little-endian format the pixel-assembly loop produces the
base-256 value of the four source bytes. -/
theorem assemblePixel_le4 (pf : PixelFormat) (raw : List Nat) (srcOff : Nat)
    (hbe : pf.bigEndian = 0) (hraw : ∀ b ∈ raw, b < 256) :
    assemblePixel pf raw srcOff 4 =
      raw.getD (srcOff + 0) 0 + 256 * raw.getD (srcOff + 1) 0 +
      65536 * raw.getD (srcOff + 2) 0 + 16777216 * raw.getD (srcOff + 3) 0 := by
  have hg0 := getD_byte_lt raw hraw (srcOff + 0)
  have hg1 := getD_byte_lt raw hraw (srcOff + 1)
  have hg2 := getD_byte_lt raw hraw (srcOff + 2)
  have hg3 := getD_byte_lt raw hraw (srcOff + 3)
  unfold assemblePixel
  rw [if_neg (by simp [hbe])]
  have hr4 : List.range 4 = [0, 1, 2, 3] := rfl
  rw [hr4]
  simp only [List.foldl_cons, List.foldl_nil, Nat.zero_or, Nat.mul_zero,
    Nat.shiftLeft_zero]
  rw [show 8 * 1 = 8 from rfl, show 8 * 2 = 16 from rfl, show 8 * 3 = 24 from rfl]
  rw [or_shift_add8 _ _ hg0, or_shift_add16 _ _ (by omega), or_shift_add24 _ _ (by omega)]
  omega

theorem pixel4_extract (g0 g1 g2 g3 : Nat)
    (h0 : g0 < 256) (h1 : g1 < 256) (h2 : g2 < 256) (h3 : g3 < 256) :
    (g0 + 256 * g1 + 65536 * g2 + 16777216 * g3) >>> 16 &&& 255 = g2 ∧
    (g0 + 256 * g1 + 65536 * g2 + 16777216 * g3) >>> 8 &&& 255 = g1 ∧
    (g0 + 256 * g1 + 65536 * g2 + 16777216 * g3) >>> 0 &&& 255 = g0 := by
  have hand : ∀ m : Nat, m &&& 255 = m % 256 := by
    intro m
    rw [show (255 : Nat) = 2 ^ 8 - 1 by norm_num, Nat.and_pow_two_sub_one_eq_mod]
  refine ⟨?_, ?_, ?_⟩
  · rw [Nat.shiftRight_eq_div_pow, hand, show (2 : Nat) ^ 16 = 65536 from by norm_num]
    omega
  · rw [Nat.shiftRight_eq_div_pow, hand, show (2 : Nat) ^ 8 = 256 from by norm_num]
    omega
  · rw [Nat.shiftRight_eq_div_pow, hand, show (2 : Nat) ^ 0 = 1 from by norm_num]
    omega

/-- On a format accepted by `isFastBgrx32`, one generic-path pixel performs
exactly the byte reorder of the fast BGRX path. -/
theorem blitGenericPixel_bgrx (pf : PixelFormat) (raw : List Nat)
    (hfast : isFastBgrx32 pf = true) (hraw : ∀ b ∈ raw, b < 256)
    (srcOff : Nat) (dst : List Nat) (dstOff : Nat) :
    blitGenericPixel pf raw srcOff 4 dst dstOff =
      setByte (setByte (setByte (setByte dst (dstOff + 0) (raw.getD (srcOff + 2) 0))
        (dstOff + 1) (raw.getD (srcOff + 1) 0))
        (dstOff + 2) (raw.getD (srcOff + 0) 0))
        (dstOff + 3) 255 := by
  simp only [isFastBgrx32, Bool.and_eq_true, beq_iff_eq] at hfast
  obtain ⟨⟨⟨⟨⟨⟨⟨⟨hbpp, hbe⟩, htc⟩, hrm⟩, hgm⟩, hbm⟩, hrs⟩, hgs⟩, hbs⟩ := hfast
  have ha := assemblePixel_le4 pf raw srcOff hbe hraw
  obtain ⟨e2, e1, e0⟩ := pixel4_extract (raw.getD (srcOff + 0) 0) (raw.getD (srcOff + 1) 0)
    (raw.getD (srcOff + 2) 0) (raw.getD (srcOff + 3) 0)
    (getD_byte_lt raw hraw _) (getD_byte_lt raw hraw _)
    (getD_byte_lt raw hraw _) (getD_byte_lt raw hraw _)
  simp only [blitGenericPixel, ha, hrs, hgs, hbs, hrm, hgm, hbm, e2, e1, e0, scaleChannel,
    if_pos]

/-- On a format accepted by `isFastRgbx32`, one generic-path pixel performs
exactly the byte reorder of the fast RGBX path. -/
theorem blitGenericPixel_rgbx (pf : PixelFormat) (raw : List Nat)
    (hfast : isFastRgbx32 pf = true) (hraw : ∀ b ∈ raw, b < 256)
    (srcOff : Nat) (dst : List Nat) (dstOff : Nat) :
    blitGenericPixel pf raw srcOff 4 dst dstOff =
      setByte (setByte (setByte (setByte dst (dstOff + 0) (raw.getD (srcOff + 0) 0))
        (dstOff + 1) (raw.getD (srcOff + 1) 0))
        (dstOff + 2) (raw.getD (srcOff + 2) 0))
        (dstOff + 3) 255 := by
  simp only [isFastRgbx32, Bool.and_eq_true, beq_iff_eq] at hfast
  obtain ⟨⟨⟨⟨⟨⟨⟨⟨hbpp, hbe⟩, htc⟩, hrm⟩, hgm⟩, hbm⟩, hrs⟩, hgs⟩, hbs⟩ := hfast
  have ha := assemblePixel_le4 pf raw srcOff hbe hraw
  obtain ⟨e2, e1, e0⟩ := pixel4_extract (raw.getD (srcOff + 0) 0) (raw.getD (srcOff + 1) 0)
    (raw.getD (srcOff + 2) 0) (raw.getD (srcOff + 3) 0)
    (getD_byte_lt raw hraw _) (getD_byte_lt raw hraw _)
    (getD_byte_lt raw hraw _) (getD_byte_lt raw hraw _)
  simp only [blitGenericPixel, ha, hrs, hgs, hbs, hrm, hgm, hbm, e2, e1, e0, scaleChannel,
    if_pos]

theorem blitGenericCols_eq_bgrx (pf : PixelFormat) (raw : List Nat)
    (hfast : isFastBgrx32 pf = true) (hraw : ∀ b ∈ raw, b < 256) :
    ∀ (cols srcOff dstOff : Nat) (dst : List Nat),
    blitGenericCols pf raw 4 cols srcOff dstOff dst = blitBgrxCols raw cols srcOff dstOff dst := by
  intro cols
  induction cols with
  | zero => intro srcOff dstOff dst; rfl
  | succ n ih =>
    intro srcOff dstOff dst
    rw [blitGenericCols, blitBgrxCols, blitGenericPixel_bgrx pf raw hfast hraw, ih]

theorem blitGenericRows_eq_bgrx (pf : PixelFormat) (raw : List Nat) (x fbW w : Nat)
    (hfast : isFastBgrx32 pf = true) (hraw : ∀ b ∈ raw, b < 256) :
    ∀ (rows rowAbs srcOff : Nat) (dst : List Nat),
    blitGenericRows pf raw 4 x fbW w rows rowAbs srcOff dst =
      blitBgrxRows raw x fbW w rows rowAbs srcOff dst := by
  intro rows
  induction rows with
  | zero => intro rowAbs srcOff dst; rfl
  | succ n ih =>
    intro rowAbs srcOff dst
    rw [blitGenericRows, blitBgrxRows, blitGenericCols_eq_bgrx pf raw hfast hraw, ih]

theorem blitGenericCols_eq_rgbx (pf : PixelFormat) (raw : List Nat)
    (hfast : isFastRgbx32 pf = true) (hraw : ∀ b ∈ raw, b < 256) :
    ∀ (cols srcOff dstOff : Nat) (dst : List Nat),
    blitGenericCols pf raw 4 cols srcOff dstOff dst = blitRgbxCols raw cols srcOff dstOff dst := by
  intro cols
  induction cols with
  | zero => intro srcOff dstOff dst; rfl
  | succ n ih =>
    intro srcOff dstOff dst
    rw [blitGenericCols, blitRgbxCols, blitGenericPixel_rgbx pf raw hfast hraw, ih]

theorem blitGenericRows_eq_rgbx (pf : PixelFormat) (raw : List Nat) (x fbW w : Nat)
    (hfast : isFastRgbx32 pf = true) (hraw : ∀ b ∈ raw, b < 256) :
    ∀ (rows rowAbs srcOff : Nat) (dst : List Nat),
    blitGenericRows pf raw 4 x fbW w rows rowAbs srcOff dst =
      blitRgbxRows raw x fbW w rows rowAbs srcOff dst := by
  intro rows
  induction rows with
  | zero => intro rowAbs srcOff dst; rfl
  | succ n ih =>
    intro rowAbs srcOff dst
    rw [blitGenericRows, blitRgbxRows, blitGenericCols_eq_rgbx pf raw hfast hraw, ih]

/-- C4: for every rectangle of raw bytes and each of the two recognized
32-bit little-endian truecolor formats with 8-bit channels — shifts
(R=16,G=8,B=0), i.e. BGRX, and (R=0,G=8,B=16), i.e. RGBX — the fast
byte-reorder path and the generic shift-mask-scale path write identical
RGBA output to the framebuffer buffer. -/
theorem fastpath_generic_equiv (x y w h fbW : Nat) (raw dst : List Nat)
    (pfB pfR : PixelFormat) (hraw : ∀ b ∈ raw, b < 256)
    (hB : isFastBgrx32 pfB = true) (hR : isFastRgbx32 pfR = true) :
    blitGeneric pfB x y w h raw 4 fbW dst = blitRaw32leBgrx x y w h raw fbW dst ∧
    blitGeneric pfR x y w h raw 4 fbW dst = blitRaw32leRgbx x y w h raw fbW dst :=
  ⟨blitGenericRows_eq_bgrx pfB raw x fbW w hB hraw h y 0 dst,
   blitGenericRows_eq_rgbx pfR raw x fbW w hR hraw h y 0 dst⟩

/-- The RGBX fast format (the BGRX one is `preferredPf`). -/
def rgbxPf : PixelFormat :=
  { bitsPerPixel := 32, depth := 24, bigEndian := 0, trueColor := 1,
    redMax := 255, greenMax := 255, blueMax := 255,
    redShift := 0, greenShift := 8, blueShift := 16 }

theorem fastpath_generic_equiv_witness :
    blitGeneric preferredPf 1 0 1 2 [11, 22, 33, 44, 55, 66, 77, 88] 4 3
        (initFramebuffer 3 2) =
      blitRaw32leBgrx 1 0 1 2 [11, 22, 33, 44, 55, 66, 77, 88] 3 (initFramebuffer 3 2) ∧
    blitGeneric rgbxPf 1 0 1 2 [11, 22, 33, 44, 55, 66, 77, 88] 4 3
        (initFramebuffer 3 2) =
      blitRaw32leRgbx 1 0 1 2 [11, 22, 33, 44, 55, 66, 77, 88] 3 (initFramebuffer 3 2) :=
  fastpath_generic_equiv 1 0 1 2 3 [11, 22, 33, 44, 55, 66, 77, 88] (initFramebuffer 3 2)
    preferredPf rgbxPf (by decide) (by decide) (by decide)

/-! ## C2: ZLib rectangle size contract -/

/-- `target.set(chunk, off)` under the in-bounds guard of the `Unzlib`
callback: overwrite `chunk.length` bytes of `target` starting at `off`. -/
def writeBytes (target : List Nat) (off : Nat) (chunk : List Nat) : List Nat :=
  target.take off ++ chunk ++ target.drop (off + chunk.length)

/-- The output callback installed by `ensureZlibStream`: one decompressed
chunk arrives; if it would run past the target it throws the overflow error
(`Zlib rect overflow: got NEXT, expected LEN`), otherwise it is copied at
the write offset, which advances. -/
def zlibPushChunk (target : List Nat) (off : Nat) (chunk : List Nat) :
    Except RfbErr (List Nat × Nat) :=
  if target.length < off + chunk.length then
    .error (.zlibOverflow (off + chunk.length) target.length)
  else .ok (writeBytes target off chunk, off + chunk.length)

/-- Feeding one compressed payload into the persistent inflate context makes
the decompressor deliver a sequence of output chunks through the callback;
the decompressor itself (`fflate`'s `Unzlib`) is external, so the chunk
sequence it produces is the parameter here. -/
def feedChunks (target : List Nat) (off : Nat) :
    List (List Nat) → Except RfbErr (List Nat × Nat)
  | [] => .ok (target, off)
  | c :: cs =>
    match zlibPushChunk target off c with
    | .error e => .error e
    | .ok (t₂, off₂) => feedChunks t₂ off₂ cs

/-- `inflateZlibRect` (rfb.ts): allocate `expectedLen` output bytes, run the
compressed payload through the inflate context (delivering
`inflatedChunks`), and fail with the size-mismatch error unless the output
offset landed exactly on `expectedLen`.  (The source's `expectedLen < 0`
guard is vacuous here: `w*h*bytesPerPixel` is a `Nat`.) -/
def inflateZlibRect (inflatedChunks : List (List Nat)) (expectedLen : Nat) :
    Except RfbErr (List Nat) :=
  match feedChunks (List.replicate expectedLen 0) 0 inflatedChunks with
  | .error e => .error e
  | .ok (out, got) =>
    if got ≠ expectedLen then .error (.zlibSizeMismatch got expectedLen)
    else .ok out

/-- Processing of one ZLib rectangle in `handleFramebufferUpdate`: the
inflate must succeed before `blitRaw` runs; an error from either aborts the
whole update, so an error result means the framebuffer `fb` is untouched. -/
def processZlibRect (inflatedChunks : List (List Nat)) (pf : PixelFormat)
    (x y w h bpp fbW : Nat) (fb : List Nat) : Except RfbErr (List Nat) :=
  match inflateZlibRect inflatedChunks (w * h * bpp) with
  | .error e => .error e
  | .ok inflated => blitRaw pf x y w h inflated bpp fbW fb

theorem writeBytes_length (target : List Nat) (off : Nat) (chunk : List Nat)
    (h : off + chunk.length ≤ target.length) :
    (writeBytes target off chunk).length = target.length := by
  simp only [writeBytes, List.length_append, List.length_take, List.length_drop]
  omega

theorem feedChunks_ok (cs : List (List Nat)) : ∀ (target : List Nat) (off : Nat),
    off + cs.flatten.length ≤ target.length →
    ∃ t, feedChunks target off cs = .ok (t, off + cs.flatten.length) ∧
      t.length = target.length := by
  induction cs with
  | nil =>
    intro target off _
    exact ⟨target, by simp [feedChunks], rfl⟩
  | cons c cs ih =>
    intro target off hle
    simp only [List.flatten_cons, List.length_append] at hle
    have hc : ¬target.length < off + c.length := by omega
    have hwl := writeBytes_length target off c (by omega)
    obtain ⟨t, ht, htl⟩ := ih (writeBytes target off c) (off + c.length) (by omega)
    refine ⟨t, ?_, by rw [htl, hwl]⟩
    simp only [feedChunks, zlibPushChunk, if_neg hc, ht]
    congr 2
    simp only [List.flatten_cons, List.length_append]
    omega

theorem feedChunks_overflow (cs : List (List Nat)) : ∀ (target : List Nat) (off : Nat),
    off ≤ target.length →
    target.length < off + cs.flatten.length →
    ∃ g, feedChunks target off cs =
        .error (.zlibOverflow g target.length) ∧ target.length < g := by
  induction cs with
  | nil =>
    intro target off hoff h
    simp only [List.flatten_nil, List.length_nil, Nat.add_zero] at h
    omega
  | cons c cs ih =>
    intro target off hoff h
    simp only [List.flatten_cons, List.length_append] at h
    by_cases hc : target.length < off + c.length
    · exact ⟨off + c.length, by simp [feedChunks, zlibPushChunk, if_pos hc], hc⟩
    · have hwl := writeBytes_length target off c (by omega)
      obtain ⟨g, hg, hgl⟩ := ih (writeBytes target off c) (off + c.length)
        (by omega) (by omega)
      rw [hwl] at hg hgl
      refine ⟨g, ?_, hgl⟩
      simp only [feedChunks, zlibPushChunk, if_neg hc]
      rw [← hwl] at hg ⊢
      exact hg

/-- C2: if the bytes the persistent inflate context produces for a ZLib
rectangle do not total exactly `w*h*bytesPerPixel`, decoding fails — with
the size-mismatch error when too short and the overflow error when too
long — and the rectangle is never blitted into the framebuffer (the
returned error means `blitRaw` was not reached and `fb` is unchanged). -/
theorem zlib_rect_exact_or_fail (inflatedChunks : List (List Nat))
    (pf : PixelFormat) (x y w h bpp fbW : Nat) (fb : List Nat)
    (hne : inflatedChunks.flatten.length ≠ w * h * bpp) :
    (inflatedChunks.flatten.length < w * h * bpp →
      processZlibRect inflatedChunks pf x y w h bpp fbW fb =
        .error (.zlibSizeMismatch inflatedChunks.flatten.length (w * h * bpp))) ∧
    (w * h * bpp < inflatedChunks.flatten.length →
      ∃ g, processZlibRect inflatedChunks pf x y w h bpp fbW fb =
        .error (.zlibOverflow g (w * h * bpp)) ∧ w * h * bpp < g) := by
  constructor
  · intro hlt
    obtain ⟨t, ht, _⟩ := feedChunks_ok inflatedChunks (List.replicate (w * h * bpp) 0) 0
      (by rw [List.length_replicate]; omega)
    simp only [processZlibRect, inflateZlibRect, ht, Nat.zero_add]
    rw [if_pos (by omega)]
  · intro hgt
    obtain ⟨g, hg, hgl⟩ := feedChunks_overflow inflatedChunks
      (List.replicate (w * h * bpp) 0) 0 (by omega)
      (by rw [List.length_replicate]; omega)
    rw [List.length_replicate] at hg hgl
    refine ⟨g, ?_, hgl⟩
    simp only [processZlibRect, inflateZlibRect, hg]

theorem zlib_rect_exact_or_fail_witness :
    (processZlibRect [[1, 2, 3]] preferredPf 0 0 1 1 4 1 (initFramebuffer 1 1) =
      .error (.zlibSizeMismatch 3 4)) ∧
    (∃ g, processZlibRect [[1, 2, 3, 4, 5]] preferredPf 0 0 1 1 4 1 (initFramebuffer 1 1) =
      .error (.zlibOverflow g 4) ∧ 4 < g) :=
  ⟨(zlib_rect_exact_or_fail [[1, 2, 3]] preferredPf 0 0 1 1 4 1 (initFramebuffer 1 1)
      (by decide)).1 (by decide),
   (zlib_rect_exact_or_fail [[1, 2, 3, 4, 5]] preferredPf 0 0 1 1 4 1 (initFramebuffer 1 1)
      (by decide)).2 (by decide)⟩

/-! ## C6: security negotiation -/

/-- Handshake-side `readExactly(n)` against the byte stream: the handshake
reads strictly sequentially, so it is a pure reader on the remaining input;
an input that ends before `n` bytes is precisely the closed-short case and
surfaces the connection-closed error. -/
def readBytes (n : Nat) (input : List Nat) : Except RfbErr (List Nat × List Nat) :=
  if input.length < n then .error .connectionClosed
  else .ok (input.take n, input.drop n)

/-- `readU8`. -/
def readU8P (input : List Nat) : Except RfbErr (Nat × List Nat) :=
  match readBytes 1 input with
  | .error e => .error e
  | .ok (b, rest) => .ok (b.getD 0 0, rest)

/-- `readU16` (big-endian `DataView.getUint16`). -/
def readU16P (input : List Nat) : Except RfbErr (Nat × List Nat) :=
  match readBytes 2 input with
  | .error e => .error e
  | .ok (b, rest) => .ok (b.getD 0 0 * 256 + b.getD 1 0, rest)

/-- `readU32` (big-endian `DataView.getUint32`). -/
def readU32P (input : List Nat) : Except RfbErr (Nat × List Nat) :=
  match readBytes 4 input with
  | .error e => .error e
  | .ok (b, rest) =>
    .ok (b.getD 0 0 * 16777216 + b.getD 1 0 * 65536 + b.getD 2 0 * 256 + b.getD 3 0, rest)

/-- `negotiateSecurity` (rfb.ts).  Besides consuming stream bytes the client
writes the selected type byte `[1]` and then the shared flag `[1]`; the ok
value carries those two sends with the remaining stream.  Failure aborts
the handshake (`throw`). -/
def negotiateSecurity (input : List Nat) : Except RfbErr (List (List Nat) × List Nat) :=
  match readU8P input with
  | .error e => .error e
  | .ok (nSec, s1) =>
    if nSec = 0 then
      match readU32P s1 with
      | .error e => .error e
      | .ok (len, s2) =>
        match readBytes len s2 with
        | .error e => .error e
        | .ok (reason, _) => .error (.securityFailed reason)
    else
      match readBytes nSec s1 with
      | .error e => .error e
      | .ok (secTypes, s2) =>
        if secTypes.contains 1 then
          match readU32P s2 with
          | .error e => .error e
          | .ok (secResult, s3) =>
            if secResult = 0 then .ok ([[1], [1]], s3)
            else .error (.securityResult secResult)
        else .error .noNoneSecurity

/-- `ServerInit` contents (name kept as raw UTF-8 bytes). -/
structure ServerInitMsg where
  width : Nat
  height : Nat
  name : List Nat
  pixelFormat : PixelFormat
deriving Repr, DecidableEq

/-- `readPixelFormat` (rfb.ts): 16 bytes, u8/u16-BE fields, 3 reserved. -/
def readPixelFormatP (input : List Nat) : Except RfbErr (PixelFormat × List Nat) :=
  match readBytes 16 input with
  | .error e => .error e
  | .ok (b, rest) =>
    .ok ({ bitsPerPixel := b.getD 0 0, depth := b.getD 1 0, bigEndian := b.getD 2 0,
           trueColor := b.getD 3 0,
           redMax := b.getD 4 0 * 256 + b.getD 5 0,
           greenMax := b.getD 6 0 * 256 + b.getD 7 0,
           blueMax := b.getD 8 0 * 256 + b.getD 9 0,
           redShift := b.getD 10 0, greenShift := b.getD 11 0,
           blueShift := b.getD 12 0 }, rest)

/-- `readServerInit` (rfb.ts): u16 width, u16 height, 16-byte pixel format,
u32 name length, name bytes. -/
def readServerInitP (input : List Nat) : Except RfbErr (ServerInitMsg × List Nat) :=
  match readU16P input with
  | .error e => .error e
  | .ok (width, s1) =>
    match readU16P s1 with
    | .error e => .error e
    | .ok (height, s2) =>
      match readPixelFormatP s2 with
      | .error e => .error e
      | .ok (pixelFormat, s3) =>
        match readU32P s3 with
        | .error e => .error e
        | .ok (nameLen, s4) =>
          match readBytes nameLen s4 with
          | .error e => .error e
          | .ok (name, s5) =>
            .ok ({ width := width, height := height, name := name,
                   pixelFormat := pixelFormat }, s5)

/-- The handshake order: `negotiateSecurity` then `readServerInit`
(`handshake` in rfb.ts); a security failure aborts before any ServerInit
byte is consumed. -/
def securityThenServerInit (input : List Nat) : Except RfbErr (ServerInitMsg × List Nat) :=
  match negotiateSecurity input with
  | .error e => .error e
  | .ok (_, rest) => readServerInitP rest

theorem readBytes_exact (k : Nat) (a tail : List Nat) (ha : a.length = k) :
    readBytes k (a ++ tail) = .ok (a, tail) := by
  unfold readBytes
  rw [if_neg (by rw [List.length_append, ha]; omega), List.take_left' ha,
    List.drop_left' ha]

theorem readU8P_cons (b : Nat) (rest : List Nat) : readU8P (b :: rest) = .ok (b, rest) := by
  unfold readU8P
  rw [show b :: rest = [b] ++ rest from rfl, readBytes_exact 1 [b] rest rfl]
  rfl

theorem readU32P_cons (b0 b1 b2 b3 : Nat) (rest : List Nat) :
    readU32P (b0 :: b1 :: b2 :: b3 :: rest) =
      .ok (b0 * 16777216 + b1 * 65536 + b2 * 256 + b3, rest) := by
  unfold readU32P
  rw [show b0 :: b1 :: b2 :: b3 :: rest = [b0, b1, b2, b3] ++ rest from rfl,
    readBytes_exact 4 [b0, b1, b2, b3] rest rfl]
  rfl

/-- C6: when the server's offered security-type list contains type 1 (None)
the client selects it (sends the byte 1, then the shared flag) and the
handshake proceeds, succeeding on a zero 4-byte big-endian security result;
when the offered list does not contain 1, the handshake fails with the
authentication error before any ServerInit bytes are read — the equation
holds for every `tail`, so the ServerInit bytes are never examined. -/
theorem negotiate_security_spec (ts tail : List Nat) (hpos : 0 < ts.length)
    (hlen : ts.length < 256) :
    (ts.contains 1 = true →
      negotiateSecurity (ts.length :: (ts ++ ([0, 0, 0, 0] ++ tail))) =
        .ok ([[1], [1]], tail)) ∧
    (ts.contains 1 = false →
      securityThenServerInit (ts.length :: (ts ++ tail)) =
        .error RfbErr.noNoneSecurity) := by
  constructor
  · intro hc
    simp only [negotiateSecurity, readU8P_cons]
    rw [if_neg (by omega)]
    rw [readBytes_exact ts.length ts ([0, 0, 0, 0] ++ tail) rfl]
    simp only [hc, if_true]
    rw [show ([0, 0, 0, 0] ++ tail : List Nat) = 0 :: 0 :: 0 :: 0 :: tail from rfl,
      readU32P_cons]
    simp
  · intro hc
    have hneg : negotiateSecurity (ts.length :: (ts ++ tail)) =
        .error RfbErr.noNoneSecurity := by
      simp only [negotiateSecurity, readU8P_cons]
      rw [if_neg (by omega)]
      rw [readBytes_exact ts.length ts tail rfl]
      show (if ts.contains 1 = true then _ else _) = _
      rw [if_neg (by rw [hc]; exact Bool.false_ne_true)]
    simp only [securityThenServerInit, hneg]

theorem negotiate_security_spec_witness :
    negotiateSecurity (([1, 2] : List Nat).length :: ([1, 2] ++ ([0, 0, 0, 0] ++ [7, 7]))) =
      .ok ([[1], [1]], [7, 7]) ∧
    securityThenServerInit (([2] : List Nat).length :: ([2] ++ [9, 9])) =
      .error RfbErr.noNoneSecurity :=
  ⟨(negotiate_security_spec [1, 2] [7, 7] (by decide) (by decide)).1 (by decide),
   (negotiate_security_spec [2] [9, 9] (by decide) (by decide)).2 (by decide)⟩

/-! ## C7: outbound send path -/

def bufferedLow : Nat := 256 * 1024

def bufferedHigh : Nat := 1024 * 1024

/-- Send-side state: the transport's readiness (`dc.readyState === "open"`),
the gauge `dc.bufferedAmount` the browser reports (it grows by the byte
length of each `dc.send`), the FIFO backlog `sendQueue` with its consumed
prefix marked by `sendQueueHead`, and the messages handed to `dc.send` in
order. -/
structure SendState where
  dcOpen : Bool
  bufferedAmount : Nat
  sendQueue : List (List Nat)
  sendQueueHead : Nat
  transmitted : List (List Nat)
deriving Repr, DecidableEq

/-- The drain loop of `flushSendQueue`: while the backlog is non-empty and
the gauge is at or below the low watermark, hand the next message to
`dc.send` (which adds its length to the gauge) and advance the head.  Fuel
is the backlog size, an upper bound on iterations. -/
def flushLoop : Nat → SendState → SendState
  | 0, s => s
  | fuel + 1, s =>
    if s.sendQueueHead < s.sendQueue.length ∧ s.bufferedAmount ≤ bufferedLow then
      let next := s.sendQueue.getD s.sendQueueHead []
      flushLoop fuel { s with sendQueueHead := s.sendQueueHead + 1,
                              transmitted := s.transmitted ++ [next],
                              bufferedAmount := s.bufferedAmount + next.length }
    else s

/-- `flushSendQueue` (rfb.ts): no-op on a non-open transport; drain, then
compact the consumed prefix when `sendQueueHead > 64 && sendQueueHead * 2 >
sendQueue.length`. -/
def flushSendQueue (s : SendState) : SendState :=
  if s.dcOpen = false then s
  else
    let s₂ := flushLoop (s.sendQueue.length - s.sendQueueHead) s
    if 64 < s₂.sendQueueHead ∧ s₂.sendQueue.length < s₂.sendQueueHead * 2 then
      { s₂ with sendQueue := s₂.sendQueue.drop s₂.sendQueueHead, sendQueueHead := 0 }
    else s₂

/-- `send` (rfb.ts): dropped when the transport is not open; appended to the
backlog when the backlog is non-empty or the gauge is above the high
watermark; otherwise handed to `dc.send` immediately and the backlog
flushed. -/
def send (s : SendState) (buf : List Nat) : SendState :=
  if s.dcOpen = false then s
  else if s.sendQueueHead < s.sendQueue.length ∨ bufferedHigh < s.bufferedAmount then
    { s with sendQueue := s.sendQueue ++ [buf] }
  else
    flushSendQueue { s with transmitted := s.transmitted ++ [buf],
                            bufferedAmount := s.bufferedAmount + buf.length }

/-- C7 counterexample: the claim says a message is written immediately only
when the reported buffered bytes are at or below the LOW watermark
(`bufferedLow`), and that with buffered bytes above it the message joins the
backlog.  In this state the transport is open, the backlog is empty and the
gauge is `bufferedLow + 1` — strictly above the low watermark yet at or
below the high one — and `send` hands the message to the transport
immediately instead of queueing it: the source tests
`dc.bufferedAmount > bufferedHigh`, not the low watermark. -/
theorem send_low_watermark_counterexample :
    (send { dcOpen := true, bufferedAmount := bufferedLow + 1, sendQueue := [],
            sendQueueHead := 0, transmitted := [] } [7]).transmitted = [[7]] ∧
    (send { dcOpen := true, bufferedAmount := bufferedLow + 1, sendQueue := [],
            sendQueueHead := 0, transmitted := [] } [7]).sendQueue = [] ∧
    bufferedLow + 1 > bufferedLow := by
  refine ⟨?_, ?_, by omega⟩ <;> rfl

/-- With an empty backlog `flushSendQueue` transmits nothing (the drain
loop has no fuel and the compaction touches only the consumed prefix). -/
theorem flushSendQueue_noop (s : SendState) (hopen : s.dcOpen = true)
    (hempty : s.sendQueue.length ≤ s.sendQueueHead) :
    (flushSendQueue s).transmitted = s.transmitted := by
  unfold flushSendQueue
  rw [if_neg (by simp [hopen])]
  have hfuel : s.sendQueue.length - s.sendQueueHead = 0 := by omega
  rw [hfuel]
  show (if 64 < s.sendQueueHead ∧ s.sendQueue.length < s.sendQueueHead * 2 then
      { s with sendQueue := s.sendQueue.drop s.sendQueueHead, sendQueueHead := 0 }
    else s).transmitted = s.transmitted
  by_cases hcompact : 64 < s.sendQueueHead ∧ s.sendQueue.length < s.sendQueueHead * 2
  · rw [if_pos hcompact]
  · rw [if_neg hcompact]

/-- C7 amended: while the transport is open, an outbound message is written
to the transport immediately if and only if the backlog is empty and the
reported buffered bytes are at or below the HIGH watermark (`bufferedHigh`);
in every other case (non-empty backlog, or buffered bytes above the high
watermark) it is appended to the backlog instead.  The low watermark governs
only the backlog drain on `bufferedamountlow`. -/
theorem send_immediate_iff_high (s : SendState) (buf : List Nat)
    (hopen : s.dcOpen = true) :
    (s.sendQueue.length ≤ s.sendQueueHead ∧ s.bufferedAmount ≤ bufferedHigh →
      (send s buf).transmitted = s.transmitted ++ [buf]) ∧
    (s.sendQueueHead < s.sendQueue.length ∨ bufferedHigh < s.bufferedAmount →
      (send s buf).transmitted = s.transmitted ∧
      (send s buf).sendQueue = s.sendQueue ++ [buf]) := by
  constructor
  · intro ⟨h1, h2⟩
    unfold send
    rw [if_neg (by simp [hopen]),
      if_neg (by omega : ¬(s.sendQueueHead < s.sendQueue.length ∨ bufferedHigh < s.bufferedAmount))]
    exact flushSendQueue_noop
      { s with transmitted := s.transmitted ++ [buf],
               bufferedAmount := s.bufferedAmount + buf.length } hopen h1
  · intro h
    unfold send
    rw [if_neg (by simp [hopen]), if_pos h]
    exact ⟨rfl, rfl⟩

theorem send_immediate_iff_high_witness :
    (send { dcOpen := true, bufferedAmount := 0, sendQueue := [],
            sendQueueHead := 0, transmitted := [[1]] } [2]).transmitted = [[1], [2]] ∧
    (send { dcOpen := true, bufferedAmount := bufferedHigh + 1, sendQueue := [],
            sendQueueHead := 0, transmitted := [] } [3]).transmitted = [] ∧
    (send { dcOpen := true, bufferedAmount := bufferedHigh + 1, sendQueue := [],
            sendQueueHead := 0, transmitted := [] } [3]).sendQueue = [[3]] := by
  refine ⟨?_, ?_, ?_⟩
  · exact (send_immediate_iff_high
      { dcOpen := true, bufferedAmount := 0, sendQueue := [], sendQueueHead := 0,
        transmitted := [[1]] } [2] rfl).1 (by constructor <;> simp [bufferedHigh])
  · exact ((send_immediate_iff_high
      { dcOpen := true, bufferedAmount := bufferedHigh + 1, sendQueue := [],
        sendQueueHead := 0, transmitted := [] } [3] rfl).2 (Or.inr (Nat.lt_succ_self bufferedHigh))).1
  · exact ((send_immediate_iff_high
      { dcOpen := true, bufferedAmount := bufferedHigh + 1, sendQueue := [],
        sendQueueHead := 0, transmitted := [] } [3] rfl).2 (Or.inr (Nat.lt_succ_self bufferedHigh))).2

/-! ## C8: pointer-lock virtual-cursor seeding -/

/-- The pointer-lock-relevant state: the virtual cursor `(plX, plY)` and the
last recorded absolute position `(lastAbsX, lastAbsY)` (fields initialized
to 0 in the class). -/
structure PointerState where
  plX : Nat
  plY : Nat
  lastAbsX : Nat
  lastAbsY : Nat
deriving Repr, DecidableEq

def pInit : PointerState := { plX := 0, plY := 0, lastAbsX := 0, lastAbsY := 0 }

/-- Events that touch this state: an absolute pointer event (mouse via
`sendPointerForEvent` or touch via the touch handlers, which record
`lastAbsX/lastAbsY` as the clamped framebuffer position) and pointer-lock
entry (`onPointerLockChange` with the canvas captured). -/
inductive PEvent where
  | absPointer (x y : Nat)
  | enterLock
deriving Repr, DecidableEq

/-- One event step.  Lock entry runs
`plX = lastAbsX || floor(fbWidth/2)` and likewise for y: the JS `||` falls
back to the centre exactly when the stored coordinate is 0 (0 is falsy). -/
def pStep (fbW fbH : Nat) (s : PointerState) : PEvent → PointerState
  | .absPointer x y => { s with lastAbsX := x, lastAbsY := y }
  | .enterLock =>
    { s with plX := if s.lastAbsX = 0 then fbW / 2 else s.lastAbsX,
             plY := if s.lastAbsY = 0 then fbH / 2 else s.lastAbsY }

/-- The most recent absolute position recorded by a history, if any. -/
def lastRecorded : List PEvent → Option (Nat × Nat)
  | [] => none
  | PEvent.absPointer x y :: es =>
    some (match lastRecorded es with
          | some p => p
          | none => (x, y))
  | PEvent.enterLock :: es => lastRecorded es

theorem lastAbs_eq_lastRecorded (fbW fbH : Nat) : ∀ (es : List PEvent) (s : PointerState),
    (es.foldl (pStep fbW fbH) s).lastAbsX =
      (match lastRecorded es with
       | some p => p.1
       | none => s.lastAbsX) ∧
    (es.foldl (pStep fbW fbH) s).lastAbsY =
      (match lastRecorded es with
       | some p => p.2
       | none => s.lastAbsY) := by
  intro es
  induction es with
  | nil => intro s; exact ⟨rfl, rfl⟩
  | cons e es ih =>
    intro s
    match e with
    | .absPointer x y =>
      obtain ⟨ih1, ih2⟩ := ih { s with lastAbsX := x, lastAbsY := y }
      refine ⟨?_, ?_⟩
      · show (es.foldl (pStep fbW fbH) { s with lastAbsX := x, lastAbsY := y }).lastAbsX = _
        rw [ih1]
        cases hval : lastRecorded es <;> simp [lastRecorded, hval]
      · show (es.foldl (pStep fbW fbH) { s with lastAbsX := x, lastAbsY := y }).lastAbsY = _
        rw [ih2]
        cases hval : lastRecorded es <;> simp [lastRecorded, hval]
    | .enterLock =>
      obtain ⟨ih1, ih2⟩ := ih (pStep fbW fbH s PEvent.enterLock)
      refine ⟨?_, ?_⟩
      · show (es.foldl (pStep fbW fbH) (pStep fbW fbH s PEvent.enterLock)).lastAbsX = _
        rw [ih1]
        cases hval : lastRecorded es <;> simp [lastRecorded, hval, pStep]
      · show (es.foldl (pStep fbW fbH) (pStep fbW fbH s PEvent.enterLock)).lastAbsY = _
        rw [ih2]
        cases hval : lastRecorded es <;> simp [lastRecorded, hval, pStep]

/-- C8 counterexample: the claim requires entering pointer lock to seed the
virtual cursor from the last known absolute position whenever one exists
and from the framebuffer centre only when none has been recorded.  Here an
absolute position (0, 10) HAS been recorded on an 800×600 framebuffer, yet
lock entry seeds `plX = 400` (the centre) instead of 0, because the
`lastAbsX || floor(w/2)` seeding treats the recorded coordinate 0 as
absent. -/
theorem pointer_lock_seed_counterexample :
    lastRecorded [PEvent.absPointer 0 10] = some (0, 10) ∧
    ([PEvent.absPointer 0 10, PEvent.enterLock].foldl (pStep 800 600) pInit).plX = 400 ∧
    ([PEvent.absPointer 0 10, PEvent.enterLock].foldl (pStep 800 600) pInit).plX ≠ 0 := by
  refine ⟨rfl, rfl, by decide⟩

/-- C8 amended: whenever pointer lock is entered after any event history,
each axis of the virtual cursor is seeded from the corresponding coordinate
of the last recorded absolute position when that coordinate is nonzero, and
from the framebuffer centre `floor(dim/2)` when that coordinate is 0 or no
absolute position has been recorded at all (the fields initialize to 0, so
a recorded coordinate 0 is indistinguishable from "never recorded" and also
seeds from the centre). -/
theorem pointer_lock_seed (fbW fbH : Nat) (es : List PEvent) :
    ((pStep fbW fbH (es.foldl (pStep fbW fbH) pInit) PEvent.enterLock).plX =
      (match lastRecorded es with
       | some p => if p.1 = 0 then fbW / 2 else p.1
       | none => fbW / 2)) ∧
    ((pStep fbW fbH (es.foldl (pStep fbW fbH) pInit) PEvent.enterLock).plY =
      (match lastRecorded es with
       | some p => if p.2 = 0 then fbH / 2 else p.2
       | none => fbH / 2)) := by
  obtain ⟨h1, h2⟩ := lastAbs_eq_lastRecorded fbW fbH es pInit
  constructor
  · show (if (es.foldl (pStep fbW fbH) pInit).lastAbsX = 0 then fbW / 2
      else (es.foldl (pStep fbW fbH) pInit).lastAbsX) = _
    rw [h1]
    cases hval : lastRecorded es <;> simp [pInit]
  · show (if (es.foldl (pStep fbW fbH) pInit).lastAbsY = 0 then fbH / 2
      else (es.foldl (pStep fbW fbH) pInit).lastAbsY) = _
    rw [h2]
    cases hval : lastRecorded es <;> simp [pInit]

/-! ## C9: single-touch tracking -/

/-- One entry of a `TouchList`: its identifier and its mapped framebuffer
position.  The position mapping (`touchPos`, through the letterboxed
content rectangle) is real-valued browser layout geometry; the touch
handlers use only its result, so the mapped position is carried as data
here. -/
structure TouchPoint where
  identifier : Nat
  posX : Nat
  posY : Nat
deriving Repr, DecidableEq

/-- A touch event's two lists (`ev.touches`, `ev.changedTouches`). -/
structure TEvent where
  touches : List TouchPoint
  changedTouches : List TouchPoint
deriving Repr, DecidableEq

/-- Touch-relevant state: the single tracked identifier (`touchId`, at most
one by construction) and the recorded absolute position. -/
structure TouchState where
  touchId : Option Nat
  lastAbsX : Nat
  lastAbsY : Nat
deriving Repr, DecidableEq

/-- `touchById` (rfb.ts): empty list gives nothing; a null id selects the
first entry; otherwise the entry with the matching identifier, if any. -/
def touchById (list : List TouchPoint) (id : Option Nat) : Option TouchPoint :=
  if list.length = 0 then none
  else
    match id with
    | none => list.head?
    | some i => list.find? (fun t => t.identifier == i)

/-- `onTouchStart` (rfb.ts).  Output: new state and the pointer events sent,
as (buttonMask, x, y) triples. -/
def onTouchStart (s : TouchState) (ev : TEvent) :
    TouchState × List (Nat × Nat × Nat) :=
  if ev.touches.length = 0 ∧ ev.changedTouches.length = 0 then (s, [])
  else
    let adopted : Option Nat :=
      match s.touchId with
      | some i => some i
      | none =>
        match ev.changedTouches.head? with
        | some t => some t.identifier
        | none =>
          match ev.touches.head? with
          | some t => some t.identifier
          | none => none
    match adopted with
    | none => (s, [])
    | some i =>
      let s₁ := { s with touchId := some i }
      match touchById ev.touches (some i) with
      | some t =>
        ({ s₁ with lastAbsX := t.posX, lastAbsY := t.posY }, [(1, t.posX, t.posY)])
      | none =>
        match touchById ev.changedTouches (some i) with
        | some t =>
          ({ s₁ with lastAbsX := t.posX, lastAbsY := t.posY }, [(1, t.posX, t.posY)])
        | none => (s₁, [])

/-- `onTouchMove` (rfb.ts): ignored without a tracked id or when the tracked
id is not in `ev.touches`; otherwise sends a drag (mask 1) at the touch's
position. -/
def onTouchMove (s : TouchState) (ev : TEvent) :
    TouchState × List (Nat × Nat × Nat) :=
  match s.touchId with
  | none => (s, [])
  | some i =>
    match touchById ev.touches (some i) with
    | none => (s, [])
    | some t =>
      ({ s with lastAbsX := t.posX, lastAbsY := t.posY }, [(1, t.posX, t.posY)])

/-- `onTouchEnd` (rfb.ts, also wired to `touchcancel`): ignored without a
tracked id or when the tracked id is not in `ev.changedTouches`; otherwise
sends a release (mask 0) and clears the tracked id. -/
def onTouchEnd (s : TouchState) (ev : TEvent) :
    TouchState × List (Nat × Nat × Nat) :=
  match s.touchId with
  | none => (s, [])
  | some i =>
    match touchById ev.changedTouches (some i) with
    | none => (s, [])
    | some t =>
      ({ s with touchId := none, lastAbsX := t.posX, lastAbsY := t.posY },
       [(0, t.posX, t.posY)])

/-- C9: at most one touch identifier is tracked (the state holds a single
`Option Nat`); a touch start adopts a new identifier only when none is
tracked (a tracked id survives any start); move and end events leave the
state unchanged and emit no pointer events unless their relevant touch list
contains the tracked identifier; and only a matching end/cancel clears the
tracked identifier (move never changes it, and an end that clears it had
the tracked id among its changed touches). -/
theorem touch_single_tracking (s : TouchState) (ev : TEvent) (i : Nat) :
    (s.touchId = some i → (onTouchStart s ev).1.touchId = some i) ∧
    (s.touchId = none → onTouchMove s ev = (s, []) ∧ onTouchEnd s ev = (s, [])) ∧
    ((onTouchMove s ev).1.touchId = s.touchId) ∧
    (s.touchId = some i → touchById ev.touches (some i) = none →
      onTouchMove s ev = (s, [])) ∧
    (s.touchId = some i → touchById ev.changedTouches (some i) = none →
      onTouchEnd s ev = (s, [])) ∧
    (s.touchId = some i → (onTouchEnd s ev).1.touchId = none →
      ∃ t, touchById ev.changedTouches (some i) = some t) := by
  refine ⟨?_, ?_, ?_, ?_, ?_, ?_⟩
  · intro hs
    unfold onTouchStart
    by_cases hempty : ev.touches.length = 0 ∧ ev.changedTouches.length = 0
    · rw [if_pos hempty]
      exact hs
    · rw [if_neg hempty]
      simp only [hs]
      cases h1 : touchById ev.touches (some i) with
      | some t => rfl
      | none =>
        cases h2 : touchById ev.changedTouches (some i) with
        | some t => rfl
        | none => rfl
  · intro hs
    unfold onTouchMove onTouchEnd
    rw [hs]
    exact ⟨rfl, rfl⟩
  · unfold onTouchMove
    cases hs : s.touchId with
    | none => exact hs
    | some i' =>
      show (match touchById ev.touches (some i') with
            | none => (s, [])
            | some t =>
              ({ touchId := some i', lastAbsX := t.posX, lastAbsY := t.posY },
               [(1, t.posX, t.posY)])).1.touchId = some i'
      cases h1 : touchById ev.touches (some i') with
      | none => exact hs
      | some t => rfl
  · intro hs h1
    unfold onTouchMove
    simp only [hs, h1]
  · intro hs h2
    unfold onTouchEnd
    simp only [hs, h2]
  · intro hs
    unfold onTouchEnd
    simp only [hs]
    cases h2 : touchById ev.changedTouches (some i) with
    | none =>
      simp only [h2]
      intro hcon
      rw [hs] at hcon
      exact absurd hcon (Option.some_ne_none i)
    | some t => intro _; exact ⟨t, rfl⟩

theorem touch_single_tracking_witness :
    (({ touchId := some 5, lastAbsX := 0, lastAbsY := 0 } : TouchState).touchId = some 5 →
      (onTouchStart { touchId := some 5, lastAbsX := 0, lastAbsY := 0 }
        { touches := [{ identifier := 9, posX := 1, posY := 2 }],
          changedTouches := [{ identifier := 9, posX := 1, posY := 2 }] }).1.touchId =
        some 5) ∧
    (onTouchMove { touchId := some 5, lastAbsX := 0, lastAbsY := 0 }
        { touches := [{ identifier := 9, posX := 1, posY := 2 }], changedTouches := [] } =
      ({ touchId := some 5, lastAbsX := 0, lastAbsY := 0 }, [])) := by
  have h := touch_single_tracking { touchId := some 5, lastAbsX := 0, lastAbsY := 0 }
    { touches := [{ identifier := 9, posX := 1, posY := 2 }],
      changedTouches := [{ identifier := 9, posX := 1, posY := 2 }] } 5
  refine ⟨h.1, ?_⟩
  exact (touch_single_tracking { touchId := some 5, lastAbsX := 0, lastAbsY := 0 }
    { touches := [{ identifier := 9, posX := 1, posY := 2 }], changedTouches := [] }
    5).2.2.2.1 rfl (by decide)

/-! ## C10: synthetic Control key pairing -/

/-- The keyboard-event fields the handlers read (`keyRepeat` is the DOM
`ev.repeat` flag).  `key`/`code` are DOM strings; a printable key is a
single-code-point `key` string. -/
structure KeyEv where
  key : String
  code : String
  keyRepeat : Bool
  ctrlKey : Bool
  metaKey : Bool

/-- The `KEYSYM` table (rfb.ts): name → VNC keysym. -/
def keysymEntries : List (String × Nat) :=
  [("BackSpace", 0xff08), ("Tab", 0xff09), ("Enter", 0xff0d), ("Escape", 0xff1b),
   ("Insert", 0xff63), ("Delete", 0xffff), ("Home", 0xff50), ("End", 0xff57),
   ("PageUp", 0xff55), ("PageDown", 0xff56), ("ArrowLeft", 0xff51),
   ("ArrowUp", 0xff52), ("ArrowRight", 0xff53), ("ArrowDown", 0xff54),
   ("Shift", 0xffe1), ("Control", 0xffe3), ("Alt", 0xffe9), ("Meta", 0xffe7)]

/-- `keysymFromEvent` (rfb.ts): the `Backspace` code short-circuits; a
single-code-point key maps to its code point (`codePointAt(0)`); then the
`KEYSYM` table; then the `Esc`/`Backspace` aliases. -/
def keysymFromEvent (ev : KeyEv) : Option Nat :=
  if ev.code = "Backspace" then some 0xff08
  else if ev.key.length = 1 then (ev.key.data.head?).map Char.toNat
  else
    match keysymEntries.find? (fun p => p.1 == ev.key) with
    | some p => some p.2
    | none =>
      if ev.key = "Esc" then some 0xff1b
      else if ev.key = "Backspace" then some 0xff08
      else none

/-- Keyboard state: the typed-character counter and the two Control flags
(`ctrlDown`: a physical Control key-down has been observed and not yet
released; `ctrlSynth`: a synthetic Control down is outstanding). -/
structure KeyState where
  pendingCommandChars : Nat
  ctrlDown : Bool
  ctrlSynth : Bool
deriving Repr, DecidableEq

/-- The `onCommand` trigger condition of `onKeyDown`. -/
def kdFired (s : KeyState) (ev : KeyEv) : Bool :=
  decide (ev.key = "Enter" ∧ 0 < s.pendingCommandChars)

/-- The `pendingCommandChars` update of `onKeyDown` (`Math.max(0, n-1)` is
truncated subtraction). -/
def kdPending (s : KeyState) (ev : KeyEv) : Nat :=
  if ev.key = "Enter" then 0
  else if ev.key = "Backspace" then s.pendingCommandChars - 1
  else if ev.key = "Escape" then 0
  else if ev.key.length = 1 ∧ ¬ev.ctrlKey ∧ ¬ev.metaKey then s.pendingCommandChars + 1
  else s.pendingCommandChars

/-- `onKeyDown` (rfb.ts): returns the new state, the KeyEvents sent (down
flag, keysym) in order, and whether `onCommand` fired.  Auto-repeat is
dropped except for Backspace; a Control keysym records the physical Control
press; a non-Control keysym with `ctrlKey` set and no Control press
observed sends a synthetic Control down immediately before the key's own
event. -/
def onKeyDown (s : KeyState) (ev : KeyEv) : KeyState × List (Bool × Nat) × Bool :=
  if ev.keyRepeat ∧ ev.key ≠ "Backspace" then (s, [], false)
  else
    let s₁ := { s with pendingCommandChars := kdPending s ev }
    match keysymFromEvent ev with
    | none => (s₁, [], kdFired s ev)
    | some ks =>
      if ks = 0xffe3 then ({ s₁ with ctrlDown := true }, [(true, ks)], kdFired s ev)
      else if ev.ctrlKey ∧ s₁.ctrlDown = false then
        ({ s₁ with ctrlSynth := true }, [(true, 0xffe3), (true, ks)], kdFired s ev)
      else (s₁, [(true, ks)], kdFired s ev)

/-- `onKeyUp` (rfb.ts): sends the key's up event; a Control keysym clears
the physical flag; otherwise an outstanding synthetic Control (with no
physical Control down) is released right after and the flag cleared. -/
def onKeyUp (s : KeyState) (ev : KeyEv) : KeyState × List (Bool × Nat) :=
  match keysymFromEvent ev with
  | none => (s, [])
  | some ks =>
    if ks = 0xffe3 then ({ s with ctrlDown := false }, [(false, ks)])
    else if s.ctrlSynth ∧ s.ctrlDown = false then
      ({ s with ctrlSynth := false }, [(false, ks), (false, 0xffe3)])
    else (s, [(false, ks)])

/-- C10: a non-auto-repeat keydown mapping to a non-Control keysym with the
`ctrlKey` modifier set and no Control key-down observed sends a synthetic
Control down immediately before the key's own KeyEvent and marks the
synthetic press outstanding (with Control still not recorded as physically
down); and a subsequent keyup with a non-Control keysym while the synthetic
press is outstanding and Control is still not physically down sends the
matching synthetic Control up right after the key's up event and clears the
outstanding mark — synthetic Control presses are always released by the
next such keyup. -/
theorem ctrl_synth_paired (s s₂ : KeyState) (ev ev₂ : KeyEv) (ks ks₂ : Nat)
    (hrep : ev.keyRepeat = false)
    (hks : keysymFromEvent ev = some ks) (hnc : ks ≠ 0xffe3)
    (hctrl : ev.ctrlKey = true) (hdown : s.ctrlDown = false)
    (hks₂ : keysymFromEvent ev₂ = some ks₂) (hnc₂ : ks₂ ≠ 0xffe3)
    (hsynth : s₂.ctrlSynth = true) (hdown₂ : s₂.ctrlDown = false) :
    (onKeyDown s ev).2.1 = [(true, 0xffe3), (true, ks)] ∧
    (onKeyDown s ev).1.ctrlSynth = true ∧
    (onKeyDown s ev).1.ctrlDown = false ∧
    (onKeyUp s₂ ev₂).2 = [(false, ks₂), (false, 0xffe3)] ∧
    (onKeyUp s₂ ev₂).1.ctrlSynth = false := by
  have hd : onKeyDown s ev =
      ({ s with pendingCommandChars := kdPending s ev, ctrlSynth := true },
       [(true, 0xffe3), (true, ks)], kdFired s ev) := by
    unfold onKeyDown
    rw [if_neg (by simp [hrep])]
    simp only [hks]
    rw [if_neg hnc, if_pos ⟨hctrl, hdown⟩]
  have hu : onKeyUp s₂ ev₂ =
      ({ s₂ with ctrlSynth := false }, [(false, ks₂), (false, 0xffe3)]) := by
    unfold onKeyUp
    simp only [hks₂]
    rw [if_neg hnc₂, if_pos ⟨hsynth, hdown₂⟩]
  rw [hd, hu]
  exact ⟨rfl, rfl, hdown, rfl, rfl⟩

theorem ctrl_synth_paired_witness :
    (onKeyDown { pendingCommandChars := 0, ctrlDown := false, ctrlSynth := false }
        { key := "c", code := "KeyC", keyRepeat := false, ctrlKey := true,
          metaKey := false }).2.1 = [(true, 0xffe3), (true, 99)] ∧
    (onKeyUp { pendingCommandChars := 0, ctrlDown := false, ctrlSynth := true }
        { key := "c", code := "KeyC", keyRepeat := false, ctrlKey := false,
          metaKey := false }).2 = [(false, 99), (false, 0xffe3)] := by
  have h := ctrl_synth_paired
    { pendingCommandChars := 0, ctrlDown := false, ctrlSynth := false }
    { pendingCommandChars := 0, ctrlDown := false, ctrlSynth := true }
    { key := "c", code := "KeyC", keyRepeat := false, ctrlKey := true, metaKey := false }
    { key := "c", code := "KeyC", keyRepeat := false, ctrlKey := false, metaKey := false }
    99 99 rfl (by decide) (by decide) rfl rfl (by decide) (by decide) rfl rfl
  exact ⟨h.1, h.2.2.2.1⟩
